import Mathlib

-- Verification development for two scripts of this repository:
-- find_broken_links.py (a crawl engine over two durable key-value stores)
-- and multi-xargs.py (argument partitioning for parallel command launch).
-- Stateful code is embedded as explicit state passing plus a step relation;
-- the external collaborators (requests.get, lxml href extraction,
-- urlparse.urljoin) are modelled as an environment of functions.

-- ================================================================
-- Association-list model of the anydbm key-value stores.
-- anydbm maps string keys to string values; d[k] = v inserts or
-- replaces the single binding for k, and popitem removes one
-- arbitrary binding.  setKey places the binding for k at the end,
-- removing any previous binding for the same key.
-- ================================================================

def keys {α : Type} (m : List (String × α)) : List String :=
  m.map (fun p => p.1)

def removeKey {α : Type} (m : List (String × α)) (k : String) : List (String × α) :=
  m.filter (fun p => decide (p.1 ≠ k))

def setKey {α : Type} (m : List (String × α)) (k : String) (v : α) : List (String × α) :=
  removeKey m k ++ [(k, v)]

def hasKey {α : Type} (m : List (String × α)) (u : String) : Bool :=
  decide (u ∈ keys m)

def countKey {α : Type} (m : List (String × α)) (u : String) : Nat :=
  (m.filter (fun p => decide (p.1 = u))).length

def lookupKey {α : Type} (m : List (String × α)) (u : String) : Option α :=
  ((m.filter (fun p => decide (p.1 = u))).map (fun p => p.2)).head?

-- ================================================================
-- String helpers used by find_broken_links.py.
-- ================================================================

-- Python s.split(c, 1)[0]: the part of the string before the first
-- occurrence of the separator character (the whole string if absent).
def beforeChar (c : Char) (s : String) : String :=
  String.mk (s.toList.takeWhile (fun d => decide (d ≠ c)))

-- find_broken_links.py lines 158 and 173: url.split(':', 1)[0]
def schemeOf (url : String) : String :=
  beforeChar ':' url

-- line 198: href.split('#', 1)[0]
def stripFrag (href : String) : String :=
  beforeChar '#' href

-- Python str.startswith, line 178: url.startswith(self.base_url)
def pyStartsWith (s p : String) : Bool :=
  List.isPrefixOf p.toList s.toList

-- whether a url string carries a fragment separator at all
def hasFrag (s : String) : Bool :=
  s.toList.contains '#'

-- lines 158 and 173: the scheme whitelist check url.split(':', 1)[0]
-- in ('http', 'https')
def schemeSupported (url : String) : Bool :=
  decide (schemeOf url = "http" ∨ schemeOf url = "https")

-- requests Response.ok: no HTTPError raised, i.e. status below 400
def respOk (status : Int) : Bool :=
  decide (status < 400)

-- ================================================================
-- ResultRecord (find_broken_links.py lines 35..61): a keyword bag
-- with url mandatory and links, headers, status, exception optional.
-- The kw fields are the stored kwargs; the accessors below mirror
-- the property methods including their Python truthiness behavior.
-- ================================================================

structure ResultRecord where
  kwUrl : String
  kwLinks : Option (List String) := none
  kwHeaders : Option (List (String × String)) := none
  kwStatus : Option Int := none
  kwException : Option String := none
  deriving DecidableEq

-- lines 40-41: kwargs['url']
def ResultRecord.url (r : ResultRecord) : String :=
  r.kwUrl

-- lines 44-45: kwargs.get('links') or set(); a missing or empty value
-- is falsy and yields the empty set, so both cases give the empty list
def ResultRecord.links (r : ResultRecord) : List String :=
  match r.kwLinks with
  | some l => l
  | none => []

-- lines 48-49: kwargs.get('headers') or {}
def ResultRecord.headers (r : ResultRecord) : List (String × String) :=
  match r.kwHeaders with
  | some h => h
  | none => []

-- lines 52-53: kwargs.get('status') or None; the integer 0 is falsy in
-- Python, so a stored 0 reads back as None
def ResultRecord.status (r : ResultRecord) : Option Int :=
  match r.kwStatus with
  | some s => if s = 0 then none else some s
  | none => none

-- lines 56-57: kwargs.get('exception') or None; exception objects are
-- truthy, so this reads back the stored value (modelled as a message)
def ResultRecord.exception (r : ResultRecord) : Option String :=
  r.kwException

-- lines 59-61: (self.exception is None) and (self.status in xrange(200, 400))
def ResultRecord.ok (r : ResultRecord) : Bool :=
  r.exception.isNone &&
    (match r.status with
     | some s => decide (200 ≤ s ∧ s < 400)
     | none => false)

-- ================================================================
-- External collaborators.
-- ================================================================

inductive FetchResult where
  | success (status : Int) (headers : List (String × String)) (content : String)
  | failure (message : String)
  deriving DecidableEq

structure Env where
  fetch : String → FetchResult
  parseHrefs : String → Except String (List String)
  urljoin : String → String → String

-- ================================================================
-- BrokenLinkScanner url processing (lines 172..219).
-- ================================================================

-- lines 187..206: for internal urls fetch the page and, when the
-- response is ok, extract hrefs, strip fragments and resolve against
-- the base url; a raised fetch or parse error propagates to the caller
def processInternal (env : Env) (base url : String) : Except String ResultRecord :=
  match env.fetch url with
  | FetchResult.failure e => Except.error e
  | FetchResult.success status headers content =>
    if respOk status then
      match env.parseHrefs content with
      | Except.error e => Except.error e
      | Except.ok hrefs =>
        Except.ok
          { kwUrl := url,
            kwLinks := some (hrefs.map (fun href => env.urljoin base (stripFrag href))),
            kwHeaders := some headers,
            kwStatus := some status,
            kwException := none }
    else
      Except.ok
        { kwUrl := url,
          kwLinks := some [],
          kwHeaders := some headers,
          kwStatus := some status,
          kwException := none }

-- lines 208..219: for external urls only status and headers are kept
def processExternal (env : Env) (url : String) : Except String ResultRecord :=
  match env.fetch url with
  | FetchResult.failure e => Except.error e
  | FetchResult.success status headers _ =>
    Except.ok
      { kwUrl := url,
        kwLinks := none,
        kwHeaders := some headers,
        kwStatus := some status,
        kwException := none }

-- lines 177..181: the body of the try block
def dispatch (env : Env) (base url : String) : Except String ResultRecord :=
  if pyStartsWith url base then processInternal env base url
  else processExternal env url

-- lines 172..185: reject unsupported schemes up front, and catch any
-- error raised while fetching or parsing into the record
def processUrl (env : Env) (base url : String) : ResultRecord :=
  if schemeSupported url = false then
    { kwUrl := url, kwException := some ("Invalid url") }
  else
    match dispatch env base url with
    | Except.ok r => r
    | Except.error e => { kwUrl := url, kwException := some e }

-- ================================================================
-- Frontier policy and queue operations (lines 131..170).
-- ================================================================

-- ScanTask metadata: the json dict pushed with each queued url.  The
-- scanner always supplies a trail keyword, but _should_follow
-- re-checks its presence, hence the Option.
structure ScanTask where
  trail : Option (List String)
  deriving DecidableEq

-- lines 147..170: skip a url already in the result store, a url with
-- an unsupported scheme, or a task whose trail has length at least 5
def shouldFollow (results : List (String × ResultRecord)) (url : String) (task : ScanTask) : Bool :=
  if url ∈ keys results then false
  else if schemeSupported url = false then false
  else
    match task.trail with
    | some tr => if 5 ≤ tr.length then false else true
    | none => true

-- lines 139..145: _push_task checks the policy, then writes the binding
def pushTask (results : List (String × ResultRecord)) (queue : List (String × ScanTask))
    (url : String) (task : ScanTask) : List (String × ScanTask) :=
  if shouldFollow results url task then setKey queue url task else queue

-- run() lines 109..114: the trail recorded for every link found on a page
def newTrail (task : ScanTask) (url : String) : List String :=
  (match task.trail with
   | some tr => tr
   | none => []) ++ [url]

-- run() lines 109..114: push every extracted link with the new trail
def pushLinks (results : List (String × ResultRecord)) (queue : List (String × ScanTask))
    (trail : List String) (links : List String) : List (String × ScanTask) :=
  links.foldl (fun q link => pushTask results q link { trail := some trail }) queue

-- ================================================================
-- Engine state and the run loop (lines 65..120).
-- ================================================================

-- log records the urls passed to _store, in order; it instruments the
-- run so that at-most-once processing is expressible
structure ScanState where
  results : List (String × ResultRecord)
  queue : List (String × ScanTask)
  successCount : Nat
  failCount : Nat
  log : List String
  deriving DecidableEq

-- _pop_task (lines 134..137) removes the popped binding before the
-- loop body runs on it
def popState (s : ScanState) (url : String) : ScanState :=
  { s with queue := removeKey s.queue url }

-- one iteration of the run() while loop (lines 84..117), beginning
-- after the popitem call: process the url, update the counters, store
-- the record, then push every discovered link
def runIteration (env : Env) (base : String) (s : ScanState) (url : String) (task : ScanTask) :
    ScanState :=
  let r := processUrl env base url
  let results2 := setKey s.results r.url r
  let queue2 := pushLinks results2 s.queue (newTrail task url) r.links
  { results := results2,
    queue := queue2,
    successCount := if r.ok then s.successCount + 1 else s.successCount,
    failCount := if r.ok then s.failCount else s.failCount + 1,
    log := s.log ++ [r.url] }

-- __init__ (lines 65..77) with fresh stores: both databases are
-- created empty and the start url is pushed with an empty trail
def initState (startUrl : String) : ScanState :=
  { results := [],
    queue := pushTask [] [] startUrl { trail := some [] },
    successCount := 0,
    failCount := 0,
    log := [] }

-- popitem returns an arbitrary binding, so one engine step may pop any
-- queued url and run the loop body on it
inductive Step (env : Env) (base : String) : ScanState → ScanState → Prop where
  | iter (s : ScanState) (url : String) (task : ScanTask)
      (hmem : (url, task) ∈ s.queue) :
      Step env base s (runIteration env base (popState s url) url task)

def Reachable (env : Env) (base startUrl : String) (s : ScanState) : Prop :=
  Relation.ReflTransGen (Step env base) (initState startUrl) s

-- all keys of a store are free of fragment separators
def fragFreeKeys {α : Type} (m : List (String × α)) : Bool :=
  (keys m).all (fun u => !(hasFrag u))

-- ================================================================
-- Concrete environments used to instantiate the claims.
-- ================================================================

-- every fetch succeeds with an empty page
def plainEnv : Env :=
  { fetch := fun _ => FetchResult.success 200 [] "",
    parseHrefs := fun _ => Except.ok [],
    urljoin := fun _ h => h }

-- every fetch fails with a network error
def fetchFailEnv : Env :=
  { fetch := fun _ => FetchResult.failure ("ConnectionError"),
    parseHrefs := fun _ => Except.ok [],
    urljoin := fun _ h => h }

-- every fetch succeeds but the body does not parse
def parseFailEnv : Env :=
  { fetch := fun _ => FetchResult.success 200 [("Content-type", "text/html")] "<bad",
    parseHrefs := fun _ => Except.error ("ParserError"),
    urljoin := fun _ h => h }

-- the chain graph of the depth-cap property: the seed chain 0 links to
-- chain 1 links to ... links to chain 6, six hops from the seed
def chainUrls : List String :=
  ["http://s.test/0", "http://s.test/1", "http://s.test/2", "http://s.test/3",
   "http://s.test/4", "http://s.test/5", "http://s.test/6"]

def chain (i : Nat) : String :=
  chainUrls.getD i ""

def chainBase : String :=
  "http://s.test"

def chainNext (c : String) : List String :=
  if c = chain 0 then [chain 1]
  else if c = chain 1 then [chain 2]
  else if c = chain 2 then [chain 3]
  else if c = chain 3 then [chain 4]
  else if c = chain 4 then [chain 5]
  else if c = chain 5 then [chain 6]
  else []

-- each page body is its own url; href extraction returns the next
-- chain link for that page
def chainEnv : Env :=
  { fetch := fun u => FetchResult.success 200 [] u,
    parseHrefs := fun c => Except.ok (chainNext c),
    urljoin := fun _ h => h }

-- the trail a chain url is discovered with: all its predecessors
def trailOf (i : Nat) : List String :=
  (List.range i).map chain

-- ================================================================
-- multi-xargs.py.
-- ================================================================

-- chunks (multi-xargs.py lines 16..19): for i in xrange(0, len(l), n):
-- yield l[i:i+n].  Each loop step consumes n elements of l, so len(l)
-- steps always suffice for n at least 1; the fuel argument makes the
-- recursion structural.
def chunksAux {α : Type} (fuel : Nat) (l : List α) (n : Nat) : List (List α) :=
  match fuel, l with
  | 0, _ => []
  | _ + 1, [] => []
  | fuel2 + 1, x :: xs => (x :: xs).take n :: chunksAux fuel2 ((x :: xs).drop n) n

def chunks {α : Type} (l : List α) (n : Nat) : List (List α) :=
  chunksAux l.length l n

-- line 29: int(math.ceil(len(args) / num_parts)) with true division,
-- modelled as the exact ceiling of the rational quotient
def argsPerCommand (nargs nparts : Nat) : Nat :=
  (nargs + nparts - 1) / nparts

-- lines 29..30: partitioned_args = list(chunks(args, args_per_command))
def partitionedArgs (args : List String) (numParts : Nat) : List (List String) :=
  chunks args (argsPerCommand args.length numParts)

-- ================================================================
-- Invariants of the crawl engine.
-- ================================================================

-- every queued url is unvisited, the log lists exactly urls that are
-- stored, no url is ever stored twice, and result keys are unique
def Inv1 (s : ScanState) : Prop :=
  (∀ u, u ∈ keys s.queue → u ∉ keys s.results) ∧
  (∀ u, u ∈ s.log → u ∈ keys s.results) ∧
  s.log.Nodup ∧ (keys s.results).Nodup

-- all keys of both stores are fragment-free
def FragInv (s : ScanState) : Prop :=
  (∀ u, u ∈ keys s.queue → hasFrag u = false) ∧
  (∀ u, u ∈ keys s.results → hasFrag u = false)

-- in the chain crawl, every queue binding is a chain url of index at
-- most 4 carrying exactly its predecessor trail, and every stored url
-- is a chain url of index at most 4
def ChainInv (s : ScanState) : Prop :=
  (∀ p, p ∈ s.queue → ∃ i, i ≤ 4 ∧ p.1 = chain i ∧ p.2.trail = some (trailOf i)) ∧
  (∀ u, u ∈ keys s.results → ∃ i, i ≤ 4 ∧ u = chain i)

-- ================================================================
-- Store lemmas.
-- ================================================================

lemma mem_keys_iff {α : Type} {m : List (String × α)} {u : String} :
    u ∈ keys m ↔ ∃ v, (u, v) ∈ m := by
  constructor
  · intro h
    rcases List.mem_map.mp h with ⟨p, hp, he⟩
    rcases p with ⟨a, b⟩
    cases he
    exact ⟨b, hp⟩
  · rintro ⟨v, hv⟩
    exact List.mem_map.mpr ⟨(u, v), hv, rfl⟩

lemma mem_removeKey {α : Type} {m : List (String × α)} {k : String} {p : String × α}
    (h : p ∈ removeKey m k) : p ∈ m ∧ p.1 ≠ k := by
  have h2 := List.mem_filter.mp h
  exact ⟨h2.1, of_decide_eq_true h2.2⟩

lemma mem_keys_setKey {α : Type} {m : List (String × α)} {k u : String} {v : α} :
    u ∈ keys (setKey m k v) ↔ u = k ∨ u ∈ keys m := by
  constructor
  · intro h
    rcases mem_keys_iff.mp h with ⟨w, hw⟩
    rcases List.mem_append.mp hw with h1 | h1
    · exact Or.inr (mem_keys_iff.mpr ⟨w, (mem_removeKey h1).1⟩)
    · simp only [List.mem_singleton] at h1
      exact Or.inl (congrArg Prod.fst h1)
  · rintro (rfl | h)
    · exact mem_keys_iff.mpr ⟨v, List.mem_append.mpr (Or.inr (List.mem_singleton.mpr rfl))⟩
    · rcases mem_keys_iff.mp h with ⟨w, hw⟩
      by_cases hk : u = k
      · exact mem_keys_iff.mpr ⟨v, List.mem_append.mpr (Or.inr (by simp [hk]))⟩
      · refine mem_keys_iff.mpr ⟨w, List.mem_append.mpr (Or.inl ?_)⟩
        exact List.mem_filter.mpr ⟨hw, decide_eq_true hk⟩

lemma not_mem_keys_removeKey {α : Type} {m : List (String × α)} {k : String} :
    k ∉ keys (removeKey m k) := by
  intro h
  rcases mem_keys_iff.mp h with ⟨w, hw⟩
  exact (mem_removeKey hw).2 rfl

lemma keys_setKey_nodup {α : Type} {m : List (String × α)} {k : String} {v : α}
    (h : (keys m).Nodup) : (keys (setKey m k v)).Nodup := by
  have hsub : List.Sublist (keys (removeKey m k)) (keys m) := by
    unfold keys removeKey
    exact List.Sublist.map (fun p => p.1) (List.filter_sublist m)
  have h1 : (keys (removeKey m k)).Nodup := List.Nodup.sublist hsub h
  have h2 : keys (setKey m k v) = keys (removeKey m k) ++ [k] := by
    simp [keys, setKey]
  rw [h2]
  exact List.Nodup.append h1 (List.nodup_singleton k)
    (fun a ha hb => by
      rw [List.mem_singleton] at hb
      subst hb
      exact not_mem_keys_removeKey ha)

lemma countKey_setKey {α : Type} (m : List (String × α)) (k : String) (v : α) :
    countKey (setKey m k v) k = 1 := by
  have hnil : (removeKey m k).filter (fun p => decide (p.1 = k)) = [] := by
    rw [removeKey, List.filter_filter]
    refine List.filter_eq_nil_iff.mpr ?_
    intro p _
    simp only [Bool.and_eq_true, decide_eq_true_eq]
    rintro ⟨h1, h2⟩
    exact h2 h1
  simp [countKey, setKey, List.filter_append, hnil]

lemma lookupKey_setKey {α : Type} (m : List (String × α)) (k : String) (v : α) :
    lookupKey (setKey m k v) k = some v := by
  have hnil : (removeKey m k).filter (fun p => decide (p.1 = k)) = [] := by
    rw [removeKey, List.filter_filter]
    refine List.filter_eq_nil_iff.mpr ?_
    intro p _
    simp only [Bool.and_eq_true, decide_eq_true_eq]
    rintro ⟨h1, h2⟩
    exact h2 h1
  simp [lookupKey, setKey, List.filter_append, hnil]

-- ================================================================
-- Policy and push lemmas.
-- ================================================================

lemma shouldFollow_of_mem {results : List (String × ResultRecord)} {url : String}
    {task : ScanTask} (h : url ∈ keys results) : shouldFollow results url task = false := by
  simp [shouldFollow, h]

lemma shouldFollow_not_mem {results : List (String × ResultRecord)} {url : String}
    {task : ScanTask} (h : shouldFollow results url task = true) : url ∉ keys results := by
  intro hm
  rw [shouldFollow_of_mem hm] at h
  exact Bool.false_ne_true h

lemma shouldFollow_trail_lt {results : List (String × ResultRecord)} {url : String}
    {tr : List String} (h : shouldFollow results url { trail := some tr } = true) :
    tr.length < 5 := by
  by_contra hlen
  push_neg at hlen
  unfold shouldFollow at h
  split at h
  · exact Bool.false_ne_true h
  · split at h
    · exact Bool.false_ne_true h
    · simp only [if_pos hlen] at h
      exact Bool.false_ne_true h

lemma mem_pushTask {results : List (String × ResultRecord)} {q : List (String × ScanTask)}
    {url : String} {task : ScanTask} {p : String × ScanTask}
    (h : p ∈ pushTask results q url task) :
    p ∈ q ∨ (p = (url, task) ∧ shouldFollow results url task = true) := by
  unfold pushTask at h
  split at h
  · rcases List.mem_append.mp h with h1 | h1
    · exact Or.inl (mem_removeKey h1).1
    · rw [List.mem_singleton] at h1
      rename_i hsf
      exact Or.inr ⟨h1, hsf⟩
  · exact Or.inl h

lemma mem_pushLinks {results : List (String × ResultRecord)} {trail : List String} :
    ∀ {links : List String} {q : List (String × ScanTask)} {p : String × ScanTask},
      p ∈ pushLinks results q trail links →
      p ∈ q ∨ ∃ u, u ∈ links ∧ p = (u, { trail := some trail }) ∧
        shouldFollow results u { trail := some trail } = true := by
  intro links
  induction links with
  | nil => exact fun h => Or.inl h
  | cons l ls ih =>
    intro q p h
    rw [pushLinks, List.foldl_cons] at h
    rcases ih h with h1 | ⟨u, hu1, hu2, hu3⟩
    · rcases mem_pushTask h1 with h2 | ⟨h2, h3⟩
      · exact Or.inl h2
      · exact Or.inr ⟨l, List.mem_cons_self l ls, h2, h3⟩
    · exact Or.inr ⟨u, List.mem_cons_of_mem l hu1, hu2, hu3⟩

-- ================================================================
-- processUrl lemmas.
-- ================================================================

lemma processInternal_ok_url {env : Env} {base url : String} {r : ResultRecord}
    (h : processInternal env base url = Except.ok r) : r.kwUrl = url := by
  unfold processInternal at h
  split at h
  · exact Except.noConfusion h
  · split at h
    · split at h
      · exact Except.noConfusion h
      · injection h with h2
        subst h2
        rfl
    · injection h with h2
      subst h2
      rfl

lemma processExternal_ok_url {env : Env} {url : String} {r : ResultRecord}
    (h : processExternal env url = Except.ok r) : r.kwUrl = url := by
  unfold processExternal at h
  split at h
  · exact Except.noConfusion h
  · injection h with h2
    subst h2
    rfl

lemma processExternal_ok_links {env : Env} {url : String} {r : ResultRecord}
    (h : processExternal env url = Except.ok r) : r.kwLinks = none := by
  unfold processExternal at h
  split at h
  · exact Except.noConfusion h
  · injection h with h2
    subst h2
    rfl

lemma dispatch_ok_url {env : Env} {base url : String} {r : ResultRecord}
    (h : dispatch env base url = Except.ok r) : r.kwUrl = url := by
  unfold dispatch at h
  split at h
  · exact processInternal_ok_url h
  · exact processExternal_ok_url h

lemma processUrl_url (env : Env) (base url : String) : (processUrl env base url).url = url := by
  unfold processUrl
  split
  · rfl
  · rcases hd : dispatch env base url with e | r
    · rfl
    · exact dispatch_ok_url hd

-- ================================================================
-- runIteration projections.
-- ================================================================

lemma runIteration_results (env : Env) (base : String) (s : ScanState) (url : String)
    (task : ScanTask) :
    (runIteration env base s url task).results =
      setKey s.results (processUrl env base url).url (processUrl env base url) := rfl

lemma runIteration_queue (env : Env) (base : String) (s : ScanState) (url : String)
    (task : ScanTask) :
    (runIteration env base s url task).queue =
      pushLinks (setKey s.results (processUrl env base url).url (processUrl env base url))
        s.queue (newTrail task url) (processUrl env base url).links := rfl

lemma runIteration_log (env : Env) (base : String) (s : ScanState) (url : String)
    (task : ScanTask) :
    (runIteration env base s url task).log = s.log ++ [(processUrl env base url).url] := rfl

-- ================================================================
-- The no-duplicate-visit invariant.
-- ================================================================

lemma inv1_init (startUrl : String) : Inv1 (initState startUrl) := by
  refine ⟨?_, ?_, ?_, ?_⟩
  · intro u _ hc
    simp [initState, keys] at hc
  · intro u hu
    simp [initState] at hu
  · simp [initState]
  · simp [initState, keys]

lemma inv1_step {env : Env} {base : String} {s s2 : ScanState}
    (hstep : Step env base s s2) (h : Inv1 s) : Inv1 s2 := by
  cases hstep with
  | iter url task hmem =>
    obtain ⟨hdisj, hlogr, hlognd, hknd⟩ := h
    have hqk : url ∈ keys s.queue := mem_keys_iff.mpr ⟨task, hmem⟩
    have hur : url ∉ keys s.results := hdisj url hqk
    have hulog : url ∉ s.log := fun hx => hur (hlogr url hx)
    have hru : (processUrl env base url).url = url := processUrl_url env base url
    have hpr : (popState s url).results = s.results := rfl
    have hpl : (popState s url).log = s.log := rfl
    refine ⟨?_, ?_, ?_, ?_⟩
    · intro u hu hc
      rw [runIteration_queue, hpr] at hu
      rw [runIteration_results, hpr, hru] at hc
      rcases mem_keys_iff.mp hu with ⟨t, ht⟩
      rcases mem_pushLinks ht with h1 | ⟨u2, _, hpe, hsf⟩
      · obtain ⟨h2, h3⟩ := mem_removeKey h1
        rcases mem_keys_setKey.mp hc with h4 | h4
        · exact h3 h4
        · exact hdisj u (mem_keys_iff.mpr ⟨t, h2⟩) h4
      · have hu2 : u = u2 := congrArg Prod.fst hpe
        subst hu2
        rw [hru] at hsf
        exact shouldFollow_not_mem hsf hc
    · intro u hu
      rw [runIteration_log, hpl, hru] at hu
      rw [runIteration_results, hpr, hru]
      rcases List.mem_append.mp hu with h1 | h1
      · exact mem_keys_setKey.mpr (Or.inr (hlogr u h1))
      · rw [List.mem_singleton] at h1
        subst h1
        exact mem_keys_setKey.mpr (Or.inl rfl)
    · rw [runIteration_log, hpl, hru]
      refine List.Nodup.append hlognd (List.nodup_singleton url) ?_
      intro a ha hb
      rw [List.mem_singleton] at hb
      subst hb
      exact hulog ha
    · rw [runIteration_results, hpr, hru]
      exact keys_setKey_nodup hknd

lemma inv1_reach {env : Env} {base startUrl : String} {s : ScanState}
    (h : Reachable env base startUrl s) : Inv1 s := by
  induction h with
  | refl => exact inv1_init startUrl
  | tail _ hstep ih => exact inv1_step hstep ih

-- ================================================================
-- Fragment stripping.
-- ================================================================

lemma links_eq_of_kwLinks {r : ResultRecord} {L : List String}
    (h : r.kwLinks = some L) : r.links = L := by
  unfold ResultRecord.links
  rw [h]

lemma links_eq_nil_of_kwLinks {r : ResultRecord} (h : r.kwLinks = none) : r.links = [] := by
  unfold ResultRecord.links
  rw [h]

lemma stripFrag_fragFree (s : String) : hasFrag (stripFrag s) = false := by
  rw [Bool.eq_false_iff]
  intro hc
  have hm : '#' ∈ s.toList.takeWhile (fun d => decide (d ≠ '#')) :=
    List.elem_iff.mp hc
  have h2 := List.mem_takeWhile_imp hm
  simp at h2

lemma dispatch_ok_links {env : Env} {base url : String} {r : ResultRecord}
    (h : dispatch env base url = Except.ok r) :
    r.kwLinks = none ∨
      ∃ hrefs : List String, r.kwLinks =
        some (hrefs.map (fun href => env.urljoin base (stripFrag href))) := by
  unfold dispatch at h
  split at h
  · unfold processInternal at h
    split at h
    · exact Except.noConfusion h
    · split at h
      · split at h
        · exact Except.noConfusion h
        · injection h with h2
          subst h2
          exact Or.inr ⟨_, rfl⟩
      · injection h with h2
        subst h2
        exact Or.inr ⟨[], rfl⟩
  · exact Or.inl (processExternal_ok_links h)

lemma processUrl_links_fragFree {env : Env} {base url : String}
    (hjoin : ∀ b h2, hasFrag b = false → hasFrag h2 = false →
      hasFrag (env.urljoin b h2) = false)
    (hbase : hasFrag base = false) :
    ∀ l, l ∈ (processUrl env base url).links → hasFrag l = false := by
  intro l hl
  unfold processUrl at hl
  split at hl
  · simp [ResultRecord.links] at hl
  · rcases hd : dispatch env base url with e | r <;> rw [hd] at hl
    · simp [ResultRecord.links] at hl
    · rcases dispatch_ok_links hd with hn | ⟨hrefs, hs⟩
      · rw [links_eq_nil_of_kwLinks hn] at hl
        simp at hl
      · rw [links_eq_of_kwLinks hs] at hl
        rcases List.mem_map.mp hl with ⟨href, _, he⟩
        rw [← he]
        exact hjoin base (stripFrag href) hbase (stripFrag_fragFree href)

lemma fragInv_init {startUrl : String} (hstart : hasFrag startUrl = false) :
    FragInv (initState startUrl) := by
  constructor
  · intro u hu
    rcases mem_keys_iff.mp hu with ⟨t, ht⟩
    rcases mem_pushTask ht with h1 | ⟨h2, _⟩
    · simp at h1
    · have h3 : u = startUrl := congrArg Prod.fst h2
      rwa [h3]
  · intro u hu
    simp [initState, keys] at hu

lemma fragInv_step {env : Env} {base : String} {s s2 : ScanState}
    (hjoin : ∀ b h2, hasFrag b = false → hasFrag h2 = false →
      hasFrag (env.urljoin b h2) = false)
    (hbase : hasFrag base = false)
    (hstep : Step env base s s2) (h : FragInv s) : FragInv s2 := by
  cases hstep with
  | iter url task hmem =>
    obtain ⟨hq, hr⟩ := h
    have hu : hasFrag url = false := hq url (mem_keys_iff.mpr ⟨task, hmem⟩)
    have hru : (processUrl env base url).url = url := processUrl_url env base url
    constructor
    · intro u hu2
      rw [runIteration_queue] at hu2
      rcases mem_keys_iff.mp hu2 with ⟨t, ht⟩
      rcases mem_pushLinks ht with h1 | ⟨u2, hl2, hpe, _⟩
      · exact hq u (mem_keys_iff.mpr ⟨t, (mem_removeKey h1).1⟩)
      · have h3 : u = u2 := congrArg Prod.fst hpe
        subst h3
        exact processUrl_links_fragFree hjoin hbase u hl2
    · intro u hu2
      rw [runIteration_results, hru] at hu2
      rcases mem_keys_setKey.mp hu2 with rfl | h2
      · exact hu
      · exact hr u h2

lemma fragInv_reach {env : Env} {base startUrl : String} {s : ScanState}
    (hjoin : ∀ b h2, hasFrag b = false → hasFrag h2 = false →
      hasFrag (env.urljoin b h2) = false)
    (hbase : hasFrag base = false) (hstart : hasFrag startUrl = false)
    (h : Reachable env base startUrl s) : FragInv s := by
  induction h with
  | refl => exact fragInv_init hstart
  | tail _ hstep ih => exact fragInv_step hjoin hbase hstep ih

-- ================================================================
-- The chain crawl and the depth cap.
-- ================================================================

lemma chainRecord (i : Nat) (h : i ≤ 4) :
    processUrl chainEnv chainBase (chain i) =
      { kwUrl := chain i, kwLinks := some [chain (i + 1)], kwHeaders := some [],
        kwStatus := some 200, kwException := none } := by
  interval_cases i <;> decide

lemma trailOf_succ (i : Nat) : trailOf (i + 1) = trailOf i ++ [chain i] := by
  unfold trailOf
  rw [List.range_succ, List.map_append]
  rfl

lemma trailOf_length (i : Nat) : (trailOf i).length = i := by
  unfold trailOf
  rw [List.length_map, List.length_range]

lemma chain_ne6 (i : Nat) (h : i ≤ 4) : chain i ≠ chain 6 := by
  interval_cases i <;> decide

lemma chainInv_init : ChainInv (initState (chain 0)) := by
  constructor
  · intro p hp
    have hq : (initState (chain 0)).queue = [(chain 0, { trail := some [] })] := by decide
    rw [hq, List.mem_singleton] at hp
    subst hp
    exact ⟨0, by omega, rfl, rfl⟩
  · intro u hu
    simp [initState, keys] at hu

lemma chainInv_step {s s2 : ScanState} (hstep : Step chainEnv chainBase s s2)
    (h : ChainInv s) : ChainInv s2 := by
  cases hstep with
  | iter url task hmem =>
    obtain ⟨hq, hr⟩ := h
    obtain ⟨i, hi4, hu, ht⟩ := hq (url, task) hmem
    simp only at hu ht
    subst hu
    have hrec := chainRecord i hi4
    have hru : (processUrl chainEnv chainBase (chain i)).url = chain i :=
      processUrl_url chainEnv chainBase (chain i)
    have hlinks : (processUrl chainEnv chainBase (chain i)).links = [chain (i + 1)] := by
      rw [hrec]
      rfl
    have htrail : newTrail task (chain i) = trailOf (i + 1) := by
      unfold newTrail
      rw [ht, trailOf_succ]
    constructor
    · intro p hp
      rw [runIteration_queue, hlinks, htrail] at hp
      rcases mem_pushLinks hp with h1 | ⟨u2, hl2, hpe, hsf⟩
      · exact hq p (mem_removeKey h1).1
      · rw [List.mem_singleton] at hl2
        subst hl2
        have hlen := shouldFollow_trail_lt hsf
        rw [trailOf_length] at hlen
        subst hpe
        exact ⟨i + 1, by omega, rfl, rfl⟩
    · intro u hu2
      rw [runIteration_results, hru] at hu2
      rcases mem_keys_setKey.mp hu2 with rfl | h2
      · exact ⟨i, hi4, rfl⟩
      · exact hr u h2

lemma chainInv_reach {s : ScanState} (h : Reachable chainEnv chainBase (chain 0) s) :
    ChainInv s := by
  induction h with
  | refl => exact chainInv_init
  | tail _ hstep ih => exact chainInv_step hstep ih

-- ================================================================
-- Claims.
-- ================================================================

/-- Claim C1: for every run of the crawl engine, each url appears as a key
in the result store at most once (the log of stored urls has no duplicates
and the result keys are unique), and a url that already exists as a key in
the result store is never inserted into the frontier again: pushing it
leaves any queue unchanged, however it was rediscovered. -/
theorem claim_C1 (env : Env) (base startUrl : String) (s : ScanState)
    (hreach : Reachable env base startUrl s)
    (u : String) (q : List (String × ScanTask)) (t : ScanTask)
    (hu : u ∈ keys s.results) :
    s.log.Nodup ∧ (keys s.results).Nodup ∧ pushTask s.results q u t = q := by
  obtain ⟨_, _, hnd, hknd⟩ := inv1_reach hreach
  refine ⟨hnd, hknd, ?_⟩
  simp [pushTask, shouldFollow_of_mem hu]

/-- Witness for C1 at the state reached after processing the seed of a
one-page crawl. -/
theorem claim_C1_witness :
    (runIteration plainEnv ("http://a.test") (popState (initState ("http://a.test/"))
        ("http://a.test/")) ("http://a.test/") { trail := some [] }).log.Nodup ∧
    (keys (runIteration plainEnv ("http://a.test") (popState (initState ("http://a.test/"))
        ("http://a.test/")) ("http://a.test/") { trail := some [] }).results).Nodup ∧
    pushTask (runIteration plainEnv ("http://a.test") (popState (initState ("http://a.test/"))
        ("http://a.test/")) ("http://a.test/") { trail := some [] }).results []
      ("http://a.test/") { trail := some [] } = [] :=
  claim_C1 plainEnv ("http://a.test") ("http://a.test/")
    (runIteration plainEnv ("http://a.test") (popState (initState ("http://a.test/"))
      ("http://a.test/")) ("http://a.test/") { trail := some [] })
    (Relation.ReflTransGen.single
      (Step.iter (initState ("http://a.test/")) ("http://a.test/") { trail := some [] }
        (by decide)))
    ("http://a.test/") [] { trail := some [] } (by decide)

/-- Counterexample to C2 as stated: the state reached by crashing right
after the first pop of a fresh crawl has the popped url absent from both
the frontier and the result store, because popitem removes the binding
before the result is written. -/
theorem claim_C2_cex :
    (("http://a.test/" : String), ({ trail := some [] } : ScanTask)) ∈
      (initState ("http://a.test/")).queue ∧
    hasKey (popState (initState ("http://a.test/")) ("http://a.test/")).queue
      ("http://a.test/") = false ∧
    hasKey (popState (initState ("http://a.test/")) ("http://a.test/")).results
      ("http://a.test/") = false := by
  decide

/-- Claim C2 (amended): the frontier entry is removed at pop time, before
the result is stored, so an intermediate state with the url in neither
store does exist; the completed iteration, however, always stores the
popped url in the result store. -/
theorem claim_C2 (env : Env) (base : String) (s : ScanState) (url : String)
    (task : ScanTask) (_hmem : (url, task) ∈ s.queue) :
    hasKey (popState s url).queue url = false ∧
    hasKey (runIteration env base (popState s url) url task).results url = true := by
  constructor
  · simp only [hasKey, decide_eq_false_iff_not]
    exact not_mem_keys_removeKey
  · simp only [hasKey, decide_eq_true_eq]
    rw [runIteration_results, processUrl_url]
    exact mem_keys_setKey.mpr (Or.inl rfl)

/-- Witness for C2 on the first iteration of a one-page crawl. -/
theorem claim_C2_witness :
    hasKey (popState (initState ("http://a.test/")) ("http://a.test/")).queue
      ("http://a.test/") = false ∧
    hasKey (runIteration plainEnv ("http://a.test") (popState (initState ("http://a.test/"))
        ("http://a.test/")) ("http://a.test/") { trail := some [] }).results
      ("http://a.test/") = true :=
  claim_C2 plainEnv ("http://a.test") (initState ("http://a.test/")) ("http://a.test/")
    { trail := some [] } (by decide)

/-- Claim C3: the follow policy rejects any task whose trail has length at
least 5, and in the chain crawl whose seed is six hops away from the final
page chain 6, that page never appears as a key of the frontier or of the
result store, in any reachable state. -/
theorem claim_C3 (results : List (String × ResultRecord)) (u0 : String) (t0 : ScanTask)
    (tr : List String) (s : ScanState)
    (htr : t0.trail = some tr) (hlen : 5 ≤ tr.length)
    (hreach : Reachable chainEnv chainBase (chain 0) s) :
    shouldFollow results u0 t0 = false ∧
    hasKey s.queue (chain 6) = false ∧ hasKey s.results (chain 6) = false := by
  obtain ⟨hq, hr⟩ := chainInv_reach hreach
  refine ⟨?_, ?_, ?_⟩
  · unfold shouldFollow
    rw [htr]
    split
    · rfl
    · split
      · rfl
      · show (if 5 ≤ tr.length then false else true) = false
        rw [if_pos hlen]
  · simp only [hasKey, decide_eq_false_iff_not]
    intro hc
    rcases mem_keys_iff.mp hc with ⟨t, ht2⟩
    obtain ⟨i, hi4, he, _⟩ := hq (chain 6, t) ht2
    exact chain_ne6 i hi4 he.symm
  · simp only [hasKey, decide_eq_false_iff_not]
    intro hc
    obtain ⟨i, hi4, he⟩ := hr (chain 6) hc
    exact chain_ne6 i hi4 he.symm

/-- Witness for C3: a trail of length 5 is rejected, and the initial chain
state has no binding for the page six hops out. -/
theorem claim_C3_witness :
    shouldFollow [] (chain 0) { trail := some (trailOf 5) } = false ∧
    hasKey (initState (chain 0)).queue (chain 6) = false ∧
    hasKey (initState (chain 0)).results (chain 6) = false :=
  claim_C3 [] (chain 0) { trail := some (trailOf 5) } (trailOf 5) (initState (chain 0))
    rfl (by decide) Relation.ReflTransGen.refl

/-- Counterexample to C4 as stated: re-pushing a queued url with different
trail metadata is not a no-op; the stored task is overwritten, because
_should_follow never consults the frontier itself. -/
theorem claim_C4_cex :
    pushTask [] (pushTask [] [] ("http://a.test/y") { trail := some [] })
        ("http://a.test/y") { trail := some ["http://a.test/x"] } ≠
      pushTask [] [] ("http://a.test/y") { trail := some [] } := by
  decide

/-- Claim C4 (amended): pushing the same url twice leaves exactly one
frontier binding for it, but when the policy accepts the second push the
binding carries the second task, the first metadata being overwritten. -/
theorem claim_C4 (results : List (String × ResultRecord)) (q : List (String × ScanTask))
    (u : String) (t1 t2 : ScanTask) (h : shouldFollow results u t2 = true) :
    countKey (pushTask results (pushTask results q u t1) u t2) u = 1 ∧
    lookupKey (pushTask results (pushTask results q u t1) u t2) u = some t2 := by
  have h2 : pushTask results (pushTask results q u t1) u t2 =
      setKey (pushTask results q u t1) u t2 := by
    simp [pushTask, h]
  rw [h2]
  exact ⟨countKey_setKey _ u t2, lookupKey_setKey _ u t2⟩

/-- Witness for C4 on an empty store and queue. -/
theorem claim_C4_witness :
    countKey (pushTask [] (pushTask [] [] ("http://a.test/y") { trail := some [] })
      ("http://a.test/y") { trail := some ["http://a.test/x"] }) ("http://a.test/y") = 1 ∧
    lookupKey (pushTask [] (pushTask [] [] ("http://a.test/y") { trail := some [] })
        ("http://a.test/y") { trail := some ["http://a.test/x"] }) ("http://a.test/y") =
      some { trail := some ["http://a.test/x"] } :=
  claim_C4 [] [] ("http://a.test/y") { trail := some [] }
    { trail := some ["http://a.test/x"] } (by decide)

/-- Claim C5: processUrl is total by construction, and its two error
behaviors are as specified: a url whose scheme is not http or https gets a
record with the invalid-url exception and absent status without the
environment being consulted at all, and any error raised by the fetch or
parse dispatch is captured into the exception field with absent status. -/
theorem claim_C5 (env envAlt : Env) (base url : String) (e : String) :
    (schemeSupported url = false →
      processUrl env base url = { kwUrl := url, kwException := some ("Invalid url") } ∧
      processUrl env base url = processUrl envAlt base url) ∧
    (schemeSupported url = true → dispatch env base url = Except.error e →
      processUrl env base url = { kwUrl := url, kwException := some e }) := by
  constructor
  · intro h
    constructor
    · simp [processUrl, h]
    · simp [processUrl, h]
  · intro h1 h2
    simp [processUrl, h1, h2]

/-- Witness for C5: a mailto url is rejected identically under two
different environments, and a failing fetch is captured as the record
exception. -/
theorem claim_C5_witness :
    processUrl plainEnv ("http://a.test") ("mailto:x@y") =
      { kwUrl := "mailto:x@y", kwException := some ("Invalid url") } ∧
    processUrl plainEnv ("http://a.test") ("mailto:x@y") =
      processUrl fetchFailEnv ("http://a.test") ("mailto:x@y") ∧
    processUrl fetchFailEnv ("http://err.test") ("http://err.test/") =
      { kwUrl := "http://err.test/", kwException := some ("ConnectionError") } := by
  have h1 := (claim_C5 plainEnv fetchFailEnv ("http://a.test") ("mailto:x@y")
    ("ConnectionError")).1 (by decide)
  have h2 := (claim_C5 fetchFailEnv plainEnv ("http://err.test") ("http://err.test/")
    ("ConnectionError")).2 (by decide) rfl
  exact ⟨h1.1, h1.2, h2⟩

/-- Counterexample to C6 as stated: when the fetch of an internal page
succeeds with status 200 and headers but link extraction fails, the
record carries the parse error with absent status and headers, so the
status recording is aborted rather than kept with zero links. -/
theorem claim_C6_cex :
    parseFailEnv.fetch ("http://a.test/p") =
      FetchResult.success 200 [("Content-type", "text/html")] "<bad" ∧
    (processUrl parseFailEnv ("http://a.test") ("http://a.test/p")).status = none ∧
    (processUrl parseFailEnv ("http://a.test") ("http://a.test/p")).headers = [] ∧
    (processUrl parseFailEnv ("http://a.test") ("http://a.test/p")).exception =
      some ("ParserError") := by
  decide

/-- Claim C6 (amended): a parse failure on an internal page whose fetch
succeeded is caught at the per-url boundary, producing a record whose
exception is the parse error, with zero links and absent status. -/
theorem claim_C6 (env : Env) (base url : String) (st : Int)
    (hd : List (String × String)) (c e : String)
    (h1 : schemeSupported url = true) (h2 : pyStartsWith url base = true)
    (h3 : env.fetch url = FetchResult.success st hd c) (h4 : respOk st = true)
    (h5 : env.parseHrefs c = Except.error e) :
    processUrl env base url = { kwUrl := url, kwException := some e } ∧
    (processUrl env base url).links = [] ∧
    (processUrl env base url).status = none := by
  have hrec : processUrl env base url = { kwUrl := url, kwException := some e } := by
    simp [processUrl, dispatch, processInternal, h1, h2, h3, h4, h5]
  refine ⟨hrec, ?_, ?_⟩ <;> rw [hrec] <;> rfl

/-- Witness for C6 under the parse-failing environment. -/
theorem claim_C6_witness :
    processUrl parseFailEnv ("http://a.test") ("http://a.test/p") =
      { kwUrl := "http://a.test/p", kwException := some ("ParserError") } ∧
    (processUrl parseFailEnv ("http://a.test") ("http://a.test/p")).links = [] ∧
    (processUrl parseFailEnv ("http://a.test") ("http://a.test/p")).status = none :=
  claim_C6 parseFailEnv ("http://a.test") ("http://a.test/p") 200
    [("Content-type", "text/html")] "<bad" ("ParserError")
    (by decide) (by decide) rfl (by decide) rfl

/-- Claim C7: the derived property ok of a result record holds exactly
when the exception is absent, the status is present and the status lies
in the half-open range from 200 to 400; in particular status 200 with no
exception is ok, status 404 is not, and a fetch error with absent status
is not. -/
theorem claim_C7 (r : ResultRecord) :
    (r.ok = true ↔
      (r.exception = none ∧ ∃ s, r.status = some s ∧ 200 ≤ s ∧ s < 400)) ∧
    ({ kwUrl := "u", kwStatus := some 200 } : ResultRecord).ok = true ∧
    ({ kwUrl := "u", kwStatus := some 404 } : ResultRecord).ok = false ∧
    ({ kwUrl := "u", kwException := some ("FetchError") } : ResultRecord).ok = false := by
  refine ⟨?_, by decide, by decide, by decide⟩
  cases hE : r.exception <;> cases hS : r.status <;>
    simp [ResultRecord.ok, hE, hS]

/-- Claim C8: a url that does not start with the base url never gets any
links in its record, so an external page contributes no new frontier
entries: the queue after its iteration is the queue it started with. -/
theorem claim_C8 (env : Env) (base url : String) (s : ScanState) (task : ScanTask)
    (h : pyStartsWith url base = false) :
    (processUrl env base url).links = [] ∧
    (runIteration env base s url task).queue = s.queue := by
  have hdisp : dispatch env base url = processExternal env url := by
    simp [dispatch, h]
  have hl : (processUrl env base url).links = [] := by
    unfold processUrl
    split
    · rfl
    · rw [hdisp]
      cases hpe : processExternal env url with
      | error e => rfl
      | ok r => exact links_eq_nil_of_kwLinks (processExternal_ok_links hpe)
  refine ⟨hl, ?_⟩
  rw [runIteration_queue, hl]
  rfl

/-- Witness for C8 at the external page of the specification example. -/
theorem claim_C8_witness :
    (processUrl plainEnv ("http://a.test") ("http://b.test/page")).links = [] ∧
    (runIteration plainEnv ("http://a.test") (initState ("http://a.test/"))
      ("http://b.test/page") { trail := some [] }).queue =
      (initState ("http://a.test/")).queue :=
  claim_C8 plainEnv ("http://a.test") ("http://b.test/page")
    (initState ("http://a.test/")) { trail := some [] } (by decide)

/-- Counterexample to C9 as stated: the seed url is pushed verbatim, so a
fragment-bearing seed enters the frontier with its fragment and is later
stored under that fragment-bearing key. -/
theorem claim_C9_cex :
    hasFrag ("http://a.test/p#frag") = true ∧
    hasKey (initState ("http://a.test/p#frag")).queue ("http://a.test/p#frag") = true ∧
    hasKey (runIteration plainEnv ("http://a.test")
        (popState (initState ("http://a.test/p#frag")) ("http://a.test/p#frag"))
        ("http://a.test/p#frag") { trail := some [] }).results
      ("http://a.test/p#frag") = true := by
  decide

/-- Claim C9 (amended): every extracted link is fragment-stripped before
being resolved and enqueued, so provided the url-join collaborator does
not introduce fragments and the base and seed urls are fragment-free, no
key of either store ever contains a fragment; a fragment-bearing seed,
however, is enqueued and stored verbatim. -/
theorem claim_C9 (env : Env) (base startUrl : String) (s : ScanState)
    (hjoin : ∀ b h2, hasFrag b = false → hasFrag h2 = false →
      hasFrag (env.urljoin b h2) = false)
    (hbase : hasFrag base = false) (hstart : hasFrag startUrl = false)
    (hreach : Reachable env base startUrl s) :
    fragFreeKeys s.queue = true ∧ fragFreeKeys s.results = true := by
  obtain ⟨hq, hr⟩ := fragInv_reach hjoin hbase hstart hreach
  constructor
  · rw [fragFreeKeys, List.all_eq_true]
    intro u hu
    simp only [Bool.not_eq_true']
    exact hq u hu
  · rw [fragFreeKeys, List.all_eq_true]
    intro u hu
    simp only [Bool.not_eq_true']
    exact hr u hu

/-- Witness for C9 at the initial state of a fragment-free crawl. -/
theorem claim_C9_witness :
    fragFreeKeys (initState ("http://a.test/")).queue = true ∧
    fragFreeKeys (initState ("http://a.test/")).results = true :=
  claim_C9 plainEnv ("http://a.test") ("http://a.test/") (initState ("http://a.test/"))
    (fun _ _ _ hh => hh) (by decide) (by decide) Relation.ReflTransGen.refl

/-- Claim C10: evaluating the multi-xargs partition at six input
arguments and four parts: the chunk size is the ceiling 2, but the split
yields only 3 chunks, not 4, so the assertion in the script fails on this
input even though it has at least as many arguments as parts. -/
theorem claim_C10 :
    4 ≤ (["a", "b", "c", "d", "e", "f"] : List String).length ∧
    argsPerCommand (["a", "b", "c", "d", "e", "f"] : List String).length 4 = 2 ∧
    (partitionedArgs ["a", "b", "c", "d", "e", "f"] 4).length = 3 := by
  decide
